import Mathlib

/-!
Shallow embedding of the wal-g slice under verification:
`internal/databases/postgres/tar_interpreter.go` (the tar-entry dispatcher,
the file reconciler, and the result aggregator) and the backup-permanence
helpers (`FindPermanentBackups`, `IsPermanent`).

Modelling conventions:
* Go `map[K]V` values are association lists `List (K × V)`; `goLookup` is map
  indexing as (value, present), `goInsert` is `m[k] = v` (replacing semantics).
* The filesystem namespace is an association list from paths (component lists)
  to nodes (directory / regular file / symbolic link), each carrying its
  permission mode.  File *contents* are outside the model: the claims under
  check concern existence, node kind, open modes, error propagation and the
  aggregator, never payload bytes.
* Fallible Go calls return `Except GoErr` (or `Option GoErr` paired with the
  possibly mutated filesystem, for calls whose partial effects survive an
  error, as Go's do).
* The unwrap strategies (`UnwrapNewFile` / `UnwrapExistingFile`, selected by
  `getFileUnwrapper`) are outside the slice's reconciler logic; they are
  passed as an oracle `Bool → Except GoErr FileUnwrapResult` (the argument is
  `isNewFile`).  An event trace records open / strategy-invocation / sync /
  close actions so that resource-handling claims are statable.
-/

set_option autoImplicit false

deriving instance DecidableEq for Except

namespace WalG

universe u v

/-- Go map lookup (`v, ok := m[k]` gives `(goLookup m k)` as an `Option`). -/
def goLookup {α : Type u} {β : Type v} [DecidableEq α] : List (α × β) → α → Option β
  | [], _ => none
  | (k, v) :: rest, a => if k = a then some v else goLookup rest a

/-- Go map assignment `m[k] = v`: replaces the binding if the key is present. -/
def goInsert {α : Type u} {β : Type v} [DecidableEq α] : List (α × β) → α → β → List (α × β)
  | [], k, v => [(k, v)]
  | (a, b) :: rest, k, v => if a = k then (k, v) :: rest else (a, b) :: goInsert rest k v

/-- Go map key-presence test (`_, ok := m[k]`). -/
def goMapHasKey {α : Type u} {β : Type v} [DecidableEq α] (m : List (α × β)) (k : α) : Bool :=
  (goLookup m k).isSome

/-- Go `map[string]bool` indexing: absent keys read as `false`. -/
def goMapIndexBool {α : Type u} [DecidableEq α] (m : List (α × Bool)) (k : α) : Bool :=
  (goLookup m k).getD false

/-- A node of the modelled filesystem namespace.  Contents of regular files
are not modelled; only kind and permission mode are. -/
inductive Node : Type where
  | dir (mode : Nat)
  | file (mode : Nat)
  | symlink (dest : String)
  deriving DecidableEq, Repr

/-- A filesystem path, as a list of components. -/
abbrev FSPath : Type := List String

/-- The filesystem namespace: a finite map from paths to nodes. -/
abbrev FS : Type := List (FSPath × Node)

/-- `os.Stat`-level probe of the modelled filesystem. -/
def fsGet (fs : FS) (p : FSPath) : Option Node := goLookup fs p

/-- Install (or replace) the node at a path. -/
def fsSet (fs : FS) (p : FSPath) (n : Node) : FS := goInsert fs p n

/-- Error kinds of the embedded Go calls.  `requestedFileIsDirectory` is the
`InvalidTargetError` ("requested file is directory. Aborting") built by
`getLocalFileInfo`; `createFailed` is the "failed to create new file" wrap in
`createLocalFile`; `mkdirFailed` the "failed to create all directories" wrap. -/
inductive GoErr : Type where
  | notExist
  | requestedFileIsDirectory
  | mkdirFailed
  | chmodFailed
  | linkFailed
  | symlinkFailed
  | openFailed
  | createFailed
  deriving DecidableEq, Repr

/-- Events recorded by the embedding for resource-handling claims. -/
inductive Ev : Type where
  | opened
  | strategyInvoked (isNewFile : Bool)
  | synced
  | closed
  deriving DecidableEq, Repr

/-- An open file handle: the path it was opened at and its access modes
(`readable`/`writable` reflect the `O_RDWR` versus `O_WRONLY` open flags). -/
structure GoFile : Type where
  path : FSPath
  readable : Bool
  writable : Bool
  deriving DecidableEq, Repr

/-- Split a character list on '/', dropping empty components; `cur` holds the
reversed characters of the component being read. -/
def componentsAux : List Char → List Char → List String
  | [], cur => if cur.isEmpty then [] else [⟨cur.reverse⟩]
  | c :: rest, cur =>
    if c = '/' then
      if cur.isEmpty then componentsAux rest []
      else (⟨cur.reverse⟩ : String) :: componentsAux rest []
    else componentsAux rest (c :: cur)

/-- `path.Join` / relative-name splitting: the components of a slash-separated
name, empty components dropped (path cleaning of `..` is out of scope). -/
def pathComponents (s : String) : List String :=
  componentsAux s.data []

/-- `filepath.Base` at component granularity. -/
def baseName (s : String) : String :=
  match (pathComponents s).getLast? with
  | some b => b
  | none => "."

/-- `strings.TrimSuffix` at component granularity: drop the final component
when it equals `b`, otherwise leave the path unchanged. -/
def trimBase (p : FSPath) (b : String) : FSPath :=
  if p.getLast? = some b then p.dropLast else p

/-- `os.MkdirAll`, one component at a time: `done` is the already-validated
prefix, `rest` the components still to ensure.  Missing directories are
created with mode `0755`; a non-directory node on the way aborts (with the
partially created directories kept, as in Go). -/
def mkdirAllAux (fs : FS) (done : FSPath) : List String → Option GoErr × FS
  | [] => (none, fs)
  | c :: cs =>
    let q := done ++ [c]
    match fsGet fs q with
    | some (.dir _) => mkdirAllAux fs q cs
    | some _ => (some .mkdirFailed, fs)
    | none => mkdirAllAux (fsSet fs q (.dir 493)) q cs

/-- `os.MkdirAll(p, 0755)`. -/
def mkdirAll (fs : FS) (p : FSPath) : Option GoErr × FS :=
  mkdirAllAux fs [] p

/-- Replace a node's permission mode (no effect on a symlink node). -/
def Node.withMode : Node → Nat → Node
  | .dir _, m => .dir m
  | .file _, m => .file m
  | .symlink d, _ => .symlink d

/-- `os.Chmod`. -/
def chmod (fs : FS) (p : FSPath) (mode : Nat) : Option GoErr × FS :=
  match fsGet fs p with
  | none => (some .chmodFailed, fs)
  | some n => (none, fsSet fs p (n.withMode mode))

/-- `os.OpenFile(p, O_RDWR, 0666)`: open an existing non-directory node for
reading and writing; never creates. -/
def openFileRdwr (fs : FS) (p : FSPath) : Except GoErr GoFile :=
  match fsGet fs p with
  | some (.dir _) => .error .openFailed
  | some _ => .ok ⟨p, true, true⟩
  | none => .error .notExist

/-- Whether the parent directory of `p` exists (the empty parent is the
implicit root). -/
def parentOk (fs : FS) (p : FSPath) : Bool :=
  match p.dropLast, fsGet fs p.dropLast with
  | [], _ => true
  | _, some (.dir _) => true
  | _, _ => false

/-- `os.OpenFile(p, O_WRONLY|O_CREATE|O_TRUNC, 0666)`: write-only open,
creating the file when absent (parent must exist), truncating when present,
and failing on a directory (EISDIR). -/
def openFileWronlyCreateTrunc (fs : FS) (p : FSPath) : Except GoErr GoFile × FS :=
  match fsGet fs p with
  | some (.dir _) => (.error .openFailed, fs)
  | some _ => (.ok ⟨p, false, true⟩, fs)
  | none =>
    if parentOk fs p then (.ok ⟨p, false, true⟩, fsSet fs p (.file 438))
    else (.error .openFailed, fs)

/-- `PrepareDirs`: make sure the target's parent directories exist (no-op when
the file name already equals the target path, i.e. a local-directory run). -/
def PrepareDirs (fs : FS) (fileName : String) (targetPath : FSPath) : Option GoErr × FS :=
  if pathComponents fileName = targetPath then (none, fs)
  else mkdirAll fs (trimBase targetPath (baseName fileName))

/-- `getLocalFileInfo`: stat the target; a missing path and a directory are
both errors, the latter the `InvalidTargetError`. -/
def getLocalFileInfo (fs : FS) (targetPath : FSPath) : Except GoErr Node :=
  match fsGet fs targetPath with
  | none => .error .notExist
  | some (.dir _) => .error .requestedFileIsDirectory
  | some n => .ok n

/-- `createLocalFile`: ensure parent directories, then create the new file
write-only.  Errors are wrapped as in the source (`mkdirFailed`,
`createFailed`). -/
def createLocalFile (fs : FS) (targetPath : FSPath) (name : String) :
    Except GoErr GoFile × FS :=
  match PrepareDirs fs name targetPath with
  | (some _, fs1) => (.error .mkdirFailed, fs1)
  | (none, fs1) =>
    match openFileWronlyCreateTrunc fs1 targetPath with
    | (.ok f, fs2) => (.ok f, fs2)
    | (.error _, fs2) => (.error .createFailed, fs2)

/-- `getLocalFile`: reuse the existing local file (read-write, no truncation)
when the stat probe returned a non-nil info — the probe's error is discarded,
as in the source — otherwise create a new one (`isNewFile = true`). -/
def getLocalFile (fs : FS) (targetPath : FSPath) (name : String) :
    Except GoErr (GoFile × Bool) × FS :=
  match getLocalFileInfo fs targetPath with
  | .ok _ =>
    match openFileRdwr fs targetPath with
    | .ok f => (.ok (f, false), fs)
    | .error e => (.error e, fs)
  | .error _ =>
    match createLocalFile fs targetPath name with
    | (.ok f, fs1) => (.ok (f, true), fs1)
    | (.error e, fs1) => (.error e, fs1)

/-- Outcome kinds of one file's unwrap (`FileUnwrapResultType`). -/
inductive FileUnwrapResultType : Type where
  | Skipped
  | Completed
  | CreatedFromIncrement
  | WroteIncrementBlocks
  deriving DecidableEq, Repr

/-- One file's unwrap outcome with its block count. -/
structure FileUnwrapResult : Type where
  resultType : FileUnwrapResultType
  blockCount : Int
  deriving DecidableEq, Repr

/-- The result aggregator (`UnwrapResult`): completed-files list and the two
block-count maps.  The per-collection mutexes guard single inserts; the
sequential embedding keeps the same insert operations. -/
structure UnwrapResult : Type where
  completedFiles : List String
  createdPageFiles : List (String × Int)
  writtenIncrementFiles : List (String × Int)
  deriving DecidableEq, Repr

/-- `NewUnwrapResult`: all three collections empty. -/
def NewUnwrapResult : UnwrapResult := ⟨[], [], []⟩

/-- `addToCompletedFiles`: append to the completed-files list. -/
def addToCompletedFiles (u : UnwrapResult) (fileName : String) : UnwrapResult :=
  { u with completedFiles := u.completedFiles ++ [fileName] }

/-- `addToCreatedPageFiles`: record the blocks-to-restore count. -/
def addToCreatedPageFiles (u : UnwrapResult) (fileName : String) (blocksToRestoreCount : Int) :
    UnwrapResult :=
  { u with createdPageFiles := goInsert u.createdPageFiles fileName blocksToRestoreCount }

/-- `addToWrittenIncrementFiles`: record the written-blocks count. -/
def addToWrittenIncrementFiles (u : UnwrapResult) (fileName : String) (writtenBlocksCount : Int) :
    UnwrapResult :=
  { u with writtenIncrementFiles := goInsert u.writtenIncrementFiles fileName writtenBlocksCount }

/-- `AddFileUnwrapResult`: dispatch one outcome into the aggregator
(`Skipped` records nothing). -/
def AddFileUnwrapResult (u : UnwrapResult) (result : FileUnwrapResult) (fileName : String) :
    UnwrapResult :=
  match result.resultType with
  | .Skipped => u
  | .Completed => addToCompletedFiles u fileName
  | .CreatedFromIncrement => addToCreatedPageFiles u fileName result.blockCount
  | .WroteIncrementBlocks => addToWrittenIncrementFiles u fileName result.blockCount

/-- The interpreter state the claims touch: data directory, the optional
allowlist `FilesToUnwrap`, the aggregator, and the catchup-mode flag.
(`Sentinel` and `FilesMetadata` feed only `getFileUnwrapper`, whose strategy
choice is abstracted into the strategy oracle.) -/
structure FileTarInterpreter : Type where
  dbDataDirectory : FSPath
  filesToUnwrap : Option (List (String × Bool))
  unwrapResult : UnwrapResult
  createNewIncrementalFiles : Bool
  deriving DecidableEq, Repr

/-- Result of one `Interpret`/`unwrapRegularFile` step: error (if any),
aggregator and filesystem after the step, and the recorded event trace. -/
structure StepOut : Type where
  err : Option GoErr
  res : UnwrapResult
  fsAfter : FS
  events : List Ev
  deriving DecidableEq, Repr

/-- Modelled from the spec: `utility.LoggedSync` and `utility.LoggedClose`
(not under src/) are the two deferred calls of `unwrapRegularFile`; the close
always runs, the sync runs exactly when the fsync flag is enabled (deferred
calls run in reverse registration order, so the sync precedes the close). -/
def deferredEvents (fsync : Bool) : List Ev :=
  (if fsync then [Ev.synced] else []) ++ [Ev.closed]

/-- The body of `unwrapRegularFile` after the allowlist filter: reconcile the
local file, run the chosen unwrap strategy (the oracle, applied to
`isNewFile`), record a successful outcome in the aggregator, and release the
handle on every exit path past a successful open. -/
def processRegularFile (agg : UnwrapResult) (fs : FS) (name : String) (targetPath : FSPath)
    (fsync : Bool) (strategy : Bool → Except GoErr FileUnwrapResult) : StepOut :=
  match getLocalFile fs targetPath name with
  | (.error e, fs1) => ⟨some e, agg, fs1, []⟩
  | (.ok (_, isNewFile), fs1) =>
    match strategy isNewFile with
    | .error e => ⟨some e, agg, fs1, Ev.opened :: Ev.strategyInvoked isNewFile :: deferredEvents fsync⟩
    | .ok result =>
      ⟨none, AddFileUnwrapResult agg result name, fs1,
        Ev.opened :: Ev.strategyInvoked isNewFile :: deferredEvents fsync⟩

/-- `unwrapRegularFile`: consult the allowlist first — a non-nil allowlist
without the entry's name means "don't have to unwrap it this time" (success,
nothing done) — then run the post-filter body. -/
def unwrapRegularFile (ti : FileTarInterpreter) (fs : FS) (name : String) (targetPath : FSPath)
    (fsync : Bool) (strategy : Bool → Except GoErr FileUnwrapResult) : StepOut :=
  match ti.filesToUnwrap with
  | some m =>
    if (goLookup m name).isSome then
      processRegularFile ti.unwrapResult fs name targetPath fsync strategy
    else ⟨none, ti.unwrapResult, fs, []⟩
  | none => processRegularFile ti.unwrapResult fs name targetPath fsync strategy

/-- `os.Link(oldname, newname)`: hard link; fails when the new path exists or
the old path is not an existing regular file. -/
def osLink (fs : FS) (oldname newname : FSPath) : Option GoErr × FS :=
  if (fsGet fs newname).isSome then (some .linkFailed, fs)
  else
    match fsGet fs oldname with
    | some (.file m) => (none, fsSet fs newname (.file m))
    | _ => (some .linkFailed, fs)

/-- `os.Symlink(dest, newname)`: create a symlink node; fails when the new
path exists. -/
def osSymlink (fs : FS) (dest : String) (newname : FSPath) : Option GoErr × FS :=
  if (fsGet fs newname).isSome then (some .symlinkFailed, fs)
  else (none, fsSet fs newname (.symlink dest))

/-- The directory branch of `Interpret`: `os.MkdirAll(targetPath, 0755)`
followed by `os.Chmod(targetPath, header mode)`. -/
def interpretDir (fs : FS) (targetPath : FSPath) (mode : Nat) : Option GoErr × FS :=
  match mkdirAll fs targetPath with
  | (some e, fs1) => (some e, fs1)
  | (none, fs1) => chmod fs1 targetPath mode

/-- A tar header as `Interpret` consumes it: name, type-flag byte, mode. -/
structure Header : Type where
  name : String
  typeflag : Nat
  mode : Nat
  deriving DecidableEq, Repr

/-- `tar.TypeReg` = the byte '0'. -/
def tTypeReg : Nat := 48
/-- `tar.TypeRegA` = the zero byte. -/
def tTypeRegA : Nat := 0
/-- `tar.TypeLink` = the byte '1'. -/
def tTypeLink : Nat := 49
/-- `tar.TypeSymlink` = the byte '2'. -/
def tTypeSymlink : Nat := 50
/-- `tar.TypeDir` = the byte '5'. -/
def tTypeDir : Nat := 53

/-- `Interpret`: dispatch one archive entry by type flag.  `tarDisableFsync`
is the ambient `viper` setting `TarDisableFsyncSetting`; an unmatched type
flag falls through the switch and returns nil. -/
def Interpret (ti : FileTarInterpreter) (fs : FS) (header : Header) (tarDisableFsync : Bool)
    (strategy : Bool → Except GoErr FileUnwrapResult) : StepOut :=
  let targetPath := ti.dbDataDirectory ++ pathComponents header.name
  let fsync := !tarDisableFsync
  if header.typeflag = tTypeReg ∨ header.typeflag = tTypeRegA then
    unwrapRegularFile ti fs header.name targetPath fsync strategy
  else if header.typeflag = tTypeDir then
    match interpretDir fs targetPath header.mode with
    | (e, fs1) => ⟨e, ti.unwrapResult, fs1, []⟩
  else if header.typeflag = tTypeLink then
    match osLink fs (pathComponents header.name) targetPath with
    | (e, fs1) => ⟨e, ti.unwrapResult, fs1, []⟩
  else if header.typeflag = tTypeSymlink then
    match osSymlink fs header.name targetPath with
    | (e, fs1) => ⟨e, ti.unwrapResult, fs1, []⟩
  else ⟨none, ti.unwrapResult, fs, []⟩

/-- Modelled from the spec: `utility.BaseBackupPath` is not under src/; the
spec's scenario fixes the canonical base-backup prefix to `"base_backup/"`.
Go strings are modelled as character lists in the permanence helpers, which
slice by index. -/
def BaseBackupPath : List Char := "base_backup/".data

/-- `IsPermanent`: an object is permanent exactly when its name starts with
the base-backup prefix, is long enough to embed a backup name of the given
length right after that prefix, and that embedded name indexes `true` in the
permanent-backups map. -/
def IsPermanent (objectName : List Char) (permanentBackups : List (List Char × Bool))
    (backupNameLength : Nat) : Bool :=
  if objectName.take BaseBackupPath.length = BaseBackupPath ∧
      BaseBackupPath.length + backupNameLength ≤ objectName.length then
    goMapIndexBool permanentBackups ((objectName.drop BaseBackupPath.length).take backupNameLength)
  else false

/-- A backup's fetched metadata, as far as the permanence scan reads it. -/
structure GenericMetadata : Type where
  isPermanent : Bool
  deriving DecidableEq, Repr

/-- The loop body of `FindPermanentBackups` for one listed backup: a
metadata-fetch failure is logged and skipped; a backup whose metadata is
permanent is inserted with value `true`. -/
def permStep (fetchMeta : String → Except GoErr GenericMetadata)
    (acc : List (String × Bool)) (name : String) : List (String × Bool) :=
  match fetchMeta name with
  | .error _ => acc
  | .ok meta => if meta.isPermanent then goInsert acc name true else acc

/-- `FindPermanentBackups`: `backupsResult` is the outcome of `GetBackups`
(a collaborator outside this slice, passed as data) and `fetchMeta` the
metadata fetcher.  A listing failure yields the empty map; otherwise the
backups are folded through `permStep`. -/
def FindPermanentBackups (backupsResult : Except GoErr (List String))
    (fetchMeta : String → Except GoErr GenericMetadata) : List (String × Bool) :=
  match backupsResult with
  | .error _ => []
  | .ok backupTimes => backupTimes.foldl (permStep fetchMeta) []

/-- Record a list of (file name, outcome) pairs into an aggregator, left to
right, one `AddFileUnwrapResult` per pair. -/
def recordAll (u : UnwrapResult) (entries : List (String × FileUnwrapResult)) : UnwrapResult :=
  entries.foldl (fun acc e => AddFileUnwrapResult acc e.2 e.1) u

/-- One restore run's aggregator content after a list of recorded
(file name, outcome) pairs, starting from the empty aggregator. -/
def runAggregate (entries : List (String × FileUnwrapResult)) : UnwrapResult :=
  recordAll NewUnwrapResult entries

/-- A file name is present somewhere in the aggregator: in the
completed-files list or as a key of either block-count map. -/
def aggMem (u : UnwrapResult) (n : String) : Prop :=
  n ∈ u.completedFiles ∨ goMapHasKey u.createdPageFiles n = true ∨
    goMapHasKey u.writtenIncrementFiles n = true

/-- The three aggregate collections are pairwise disjoint on file names. -/
def aggDisjoint (u : UnwrapResult) : Prop :=
  (∀ n, n ∈ u.completedFiles → ¬goMapHasKey u.createdPageFiles n = true) ∧
  (∀ n, n ∈ u.completedFiles → ¬goMapHasKey u.writtenIncrementFiles n = true) ∧
  (∀ n, goMapHasKey u.createdPageFiles n = true → ¬goMapHasKey u.writtenIncrementFiles n = true)

/-- Every component-wise extension of `done` along `rest` is bound to a
directory node. -/
def allDirs (fs : FS) : FSPath → List String → Prop
  | _, [] => True
  | done, c :: cs => (∃ m, fsGet fs (done ++ [c]) = some (.dir m)) ∧ allDirs fs (done ++ [c]) cs

section MapLemmas

variable {α : Type u} {β : Type v} [DecidableEq α]

theorem goLookup_goInsert (m : List (α × β)) (k a : α) (v : β) :
    goLookup (goInsert m k v) a = if k = a then some v else goLookup m a := by
  induction m with
  | nil => simp [goInsert, goLookup]
  | cons p rest ih =>
    obtain ⟨b, w⟩ := p
    by_cases h1 : b = k
    · simp only [goInsert, if_pos h1]
      by_cases h2 : k = a
      · simp [goLookup, h2]
      · have h3 : ¬b = a := by rw [h1]; exact h2
        simp [goLookup, h2, h3]
    · simp only [goInsert, if_neg h1]
      by_cases h2 : b = a
      · have h3 : ¬k = a := fun he => h1 (h2.trans he.symm)
        simp [goLookup, h2, h3]
      · simp [goLookup, h2, ih]

theorem goInsert_self (m : List (α × β)) (k : α) (v : β) (h : goLookup m k = some v) :
    goInsert m k v = m := by
  induction m with
  | nil => simp [goLookup] at h
  | cons p rest ih =>
    obtain ⟨b, w⟩ := p
    by_cases h1 : b = k
    · have hv : w = v := by simpa [goLookup, if_pos h1] using h
      subst h1
      subst hv
      simp [goInsert]
    · simp only [goLookup, if_neg h1] at h
      simp [goInsert, h1, ih h]

theorem goMapHasKey_goInsert (m : List (α × β)) (k a : α) (v : β) :
    goMapHasKey (goInsert m k v) a = true ↔ a = k ∨ goMapHasKey m a = true := by
  simp only [goMapHasKey, goLookup_goInsert]
  by_cases h : k = a
  · subst h; simp
  · have h2 : ¬a = k := fun he => h he.symm
    simp [h, h2]

end MapLemmas

theorem fsGet_fsSet (fs : FS) (p q : FSPath) (n : Node) :
    fsGet (fsSet fs p n) q = if p = q then some n else fsGet fs q := by
  simp [fsGet, fsSet, goLookup_goInsert]

theorem mkdirAllAux_preserves (rest : List String) :
    ∀ (fs : FS) (done q : FSPath) (n : Node), fsGet fs q = some n →
      fsGet (mkdirAllAux fs done rest).2 q = some n := by
  induction rest with
  | nil => intro fs done q n h; simpa [mkdirAllAux] using h
  | cons c cs ih =>
    intro fs done q n h
    simp only [mkdirAllAux]
    cases hg : fsGet fs (done ++ [c]) with
    | none =>
      have hne : done ++ [c] ≠ q := fun he => by rw [he, h] at hg; exact Option.noConfusion hg
      exact ih _ _ _ _ (by rw [fsGet_fsSet]; simp [hne, h])
    | some node =>
      cases node with
      | dir m => exact ih _ _ _ _ h
      | file m => simpa using h
      | symlink d => simpa using h

theorem mkdirAllAux_ok_allDirs (rest : List String) :
    ∀ (fs : FS) (done : FSPath) (fs2 : FS), mkdirAllAux fs done rest = (none, fs2) →
      allDirs fs2 done rest := by
  induction rest with
  | nil => intro fs done fs2 h; simp [allDirs]
  | cons c cs ih =>
    intro fs done fs2 h
    simp only [mkdirAllAux] at h
    split at h
    · rename_i m hg
      have hpres := mkdirAllAux_preserves cs fs (done ++ [c]) (done ++ [c]) (Node.dir m) hg
      rw [h] at hpres
      exact ⟨⟨m, hpres⟩, ih _ _ _ h⟩
    · simp at h
    · rename_i hg
      have hset : fsGet (fsSet fs (done ++ [c]) (Node.dir 493)) (done ++ [c]) =
          some (Node.dir 493) := by
        rw [fsGet_fsSet]; simp
      have hpres := mkdirAllAux_preserves cs _ (done ++ [c]) (done ++ [c]) (Node.dir 493) hset
      rw [h] at hpres
      exact ⟨⟨493, hpres⟩, ih _ _ _ h⟩

theorem allDirs_noop (rest : List String) :
    ∀ (fs : FS) (done : FSPath), allDirs fs done rest → mkdirAllAux fs done rest = (none, fs) := by
  induction rest with
  | nil => intro fs done _; simp [mkdirAllAux]
  | cons c cs ih =>
    intro fs done h
    obtain ⟨⟨m, hm⟩, hrest⟩ := h
    simp only [mkdirAllAux, hm]
    exact ih _ _ hrest

theorem allDirs_last (rest : List String) :
    ∀ (fs : FS) (done : FSPath), allDirs fs done rest → rest ≠ [] →
      ∃ m, fsGet fs (done ++ rest) = some (Node.dir m) := by
  induction rest with
  | nil => intro fs done _ hne; exact absurd rfl hne
  | cons c cs ih =>
    intro fs done h _
    obtain ⟨⟨m, hm⟩, hrest⟩ := h
    cases cs with
    | nil => exact ⟨m, hm⟩
    | cons d ds =>
      obtain ⟨m2, hm2⟩ := ih _ _ hrest (by simp)
      exact ⟨m2, by simpa using hm2⟩

theorem allDirs_fsSet_dir (rest : List String) :
    ∀ (fs : FS) (done p : FSPath) (m0 : Nat), allDirs fs done rest →
      allDirs (fsSet fs p (Node.dir m0)) done rest := by
  induction rest with
  | nil => intro _ _ _ _ _; simp [allDirs]
  | cons c cs ih =>
    intro fs done p m0 h
    obtain ⟨⟨m, hm⟩, hrest⟩ := h
    refine ⟨?_, ih _ _ _ _ hrest⟩
    by_cases hp : p = done ++ [c]
    · exact ⟨m0, by rw [fsGet_fsSet]; simp [hp]⟩
    · exact ⟨m, by rw [fsGet_fsSet]; simp [hp, hm]⟩

theorem fsSet_self (fs : FS) (p : FSPath) (n : Node) (h : fsGet fs p = some n) :
    fsSet fs p n = fs :=
  goInsert_self fs p n h

/-- Success behaviour of the directory branch: all directories along the
target path exist afterwards, the target carries the entry's mode, and the
whole operation is idempotent. -/
theorem interpretDir_spec (fs : FS) (tp : FSPath) (mode : Nat) (hne : tp ≠ [])
    (hok : (mkdirAll fs tp).1 = none) :
    ∃ fs2, interpretDir fs tp mode = (none, fs2) ∧ fsGet fs2 tp = some (Node.dir mode) ∧
      allDirs fs2 [] tp ∧ interpretDir fs2 tp mode = (none, fs2) := by
  rcases h1 : mkdirAll fs tp with ⟨e1, fs1⟩
  have he1 : e1 = none := by rw [h1] at hok; exact hok
  subst he1
  have hdirs1 : allDirs fs1 [] tp := mkdirAllAux_ok_allDirs tp fs [] fs1 h1
  obtain ⟨m0, hm0⟩ := allDirs_last tp fs1 [] hdirs1 hne
  rw [List.nil_append] at hm0
  refine ⟨fsSet fs1 tp (Node.dir mode), ?_, ?_, ?_, ?_⟩
  · simp only [interpretDir, h1, chmod, hm0, Node.withMode]
  · rw [fsGet_fsSet]; simp
  · exact allDirs_fsSet_dir tp fs1 [] tp mode hdirs1
  · have hget2 : fsGet (fsSet fs1 tp (Node.dir mode)) tp = some (Node.dir mode) := by
      rw [fsGet_fsSet]; simp
    have hdirs2 : allDirs (fsSet fs1 tp (Node.dir mode)) [] tp :=
      allDirs_fsSet_dir tp fs1 [] tp mode hdirs1
    have hmk2 : mkdirAll (fsSet fs1 tp (Node.dir mode)) tp =
        (none, fsSet fs1 tp (Node.dir mode)) := allDirs_noop tp _ [] hdirs2
    simp only [interpretDir, hmk2, chmod, hget2, Node.withMode]
    rw [fsSet_self _ _ _ hget2]

theorem mem_completed_add (u : UnwrapResult) (r : FileUnwrapResult) (nm x : String) :
    x ∈ (AddFileUnwrapResult u r nm).completedFiles ↔
      x ∈ u.completedFiles ∨ (r.resultType = .Completed ∧ x = nm) := by
  cases hr : r.resultType <;>
    simp [AddFileUnwrapResult, hr, addToCompletedFiles, addToCreatedPageFiles,
      addToWrittenIncrementFiles]

theorem hasKey_created_add (u : UnwrapResult) (r : FileUnwrapResult) (nm x : String) :
    goMapHasKey (AddFileUnwrapResult u r nm).createdPageFiles x = true ↔
      goMapHasKey u.createdPageFiles x = true ∨
        (r.resultType = .CreatedFromIncrement ∧ x = nm) := by
  cases hr : r.resultType <;>
    simp [AddFileUnwrapResult, hr, addToCompletedFiles, addToCreatedPageFiles,
      addToWrittenIncrementFiles, goMapHasKey_goInsert]
  all_goals tauto

theorem hasKey_written_add (u : UnwrapResult) (r : FileUnwrapResult) (nm x : String) :
    goMapHasKey (AddFileUnwrapResult u r nm).writtenIncrementFiles x = true ↔
      goMapHasKey u.writtenIncrementFiles x = true ∨
        (r.resultType = .WroteIncrementBlocks ∧ x = nm) := by
  cases hr : r.resultType <;>
    simp [AddFileUnwrapResult, hr, addToCompletedFiles, addToCreatedPageFiles,
      addToWrittenIncrementFiles, goMapHasKey_goInsert]
  all_goals tauto

theorem aggMem_add (u : UnwrapResult) (r : FileUnwrapResult) (nm x : String) :
    aggMem (AddFileUnwrapResult u r nm) x ↔
      aggMem u x ∨ (r.resultType ≠ .Skipped ∧ x = nm) := by
  simp only [aggMem, mem_completed_add, hasKey_created_add, hasKey_written_add]
  cases hr : r.resultType <;> simp [hr] <;> tauto

theorem recordAll_subset (entries : List (String × FileUnwrapResult)) :
    ∀ (u : UnwrapResult) (n : String), aggMem (recordAll u entries) n →
      aggMem u n ∨ ∃ r, (n, r) ∈ entries ∧ r.resultType ≠ .Skipped := by
  induction entries with
  | nil => intro u n h; exact Or.inl h
  | cons e rest ih =>
    intro u n h
    have h1 := ih (AddFileUnwrapResult u e.2 e.1) n h
    rcases h1 with h1 | ⟨r, hr, hrt⟩
    · rcases (aggMem_add u e.2 e.1 n).mp h1 with h2 | ⟨h2, h3⟩
      · exact Or.inl h2
      · subst h3
        exact Or.inr ⟨e.2, by simp, h2⟩
    · exact Or.inr ⟨r, List.mem_cons_of_mem _ hr, hrt⟩

theorem aggDisjoint_add (u : UnwrapResult) (r : FileUnwrapResult) (nm : String)
    (hu : aggDisjoint u) (hfresh : ¬aggMem u nm) :
    aggDisjoint (AddFileUnwrapResult u r nm) := by
  obtain ⟨h12, h13, h23⟩ := hu
  have hf1 : nm ∉ u.completedFiles := fun hc => hfresh (Or.inl hc)
  have hf2 : ¬goMapHasKey u.createdPageFiles nm = true := fun hc => hfresh (Or.inr (Or.inl hc))
  have hf3 : ¬goMapHasKey u.writtenIncrementFiles nm = true :=
    fun hc => hfresh (Or.inr (Or.inr hc))
  refine ⟨?_, ?_, ?_⟩ <;> intro n hn hcontra
  · rcases (mem_completed_add u r nm n).mp hn with h | ⟨ht, he⟩ <;>
      rcases (hasKey_created_add u r nm n).mp hcontra with h2 | ⟨ht2, he2⟩
    · exact h12 n h h2
    · exact hf1 (he2 ▸ h)
    · exact hf2 (he ▸ h2)
    · rw [ht] at ht2; cases ht2
  · rcases (mem_completed_add u r nm n).mp hn with h | ⟨ht, he⟩ <;>
      rcases (hasKey_written_add u r nm n).mp hcontra with h2 | ⟨ht2, he2⟩
    · exact h13 n h h2
    · exact hf1 (he2 ▸ h)
    · exact hf3 (he ▸ h2)
    · rw [ht] at ht2; cases ht2
  · rcases (hasKey_created_add u r nm n).mp hn with h | ⟨ht, he⟩ <;>
      rcases (hasKey_written_add u r nm n).mp hcontra with h2 | ⟨ht2, he2⟩
    · exact h23 n h h2
    · exact hf2 (he2 ▸ h)
    · exact hf3 (he ▸ h2)
    · rw [ht] at ht2; cases ht2

theorem recordAll_disjoint (entries : List (String × FileUnwrapResult)) :
    ∀ u : UnwrapResult, aggDisjoint u → (∀ n, aggMem u n → n ∉ entries.map Prod.fst) →
      (entries.map Prod.fst).Nodup → aggDisjoint (recordAll u entries) := by
  induction entries with
  | nil => intro u hu _ _; exact hu
  | cons e rest ih =>
    intro u hu hfresh hnodup
    have hnm : ¬aggMem u e.1 := fun hmem => hfresh e.1 hmem (by simp)
    have hhead : e.1 ∉ rest.map Prod.fst := by
      simp only [List.map_cons, List.nodup_cons] at hnodup
      exact hnodup.1
    refine ih (AddFileUnwrapResult u e.2 e.1) (aggDisjoint_add u e.2 e.1 hu hnm) ?_ ?_
    · intro n hn
      rcases (aggMem_add u e.2 e.1 n).mp hn with h | ⟨_, he⟩
      · intro hmem
        exact hfresh n h (List.mem_cons_of_mem _ hmem)
      · exact he ▸ hhead
    · simp only [List.map_cons, List.nodup_cons] at hnodup
      exact hnodup.2

theorem aggDisjoint_empty : aggDisjoint NewUnwrapResult := by
  refine ⟨?_, ?_, ?_⟩ <;> intro n h <;> simp [NewUnwrapResult, goMapHasKey, goLookup] at h

theorem aggMem_empty (n : String) : ¬aggMem NewUnwrapResult n := by
  simp [aggMem, NewUnwrapResult, goMapHasKey, goLookup]

theorem hasKey_permStep (fetch : String → Except GoErr GenericMetadata)
    (acc : List (String × Bool)) (t n : String) :
    goMapHasKey (permStep fetch acc t) n = true ↔
      goMapHasKey acc n = true ∨
        (n = t ∧ ∃ meta, fetch t = .ok meta ∧ meta.isPermanent = true) := by
  unfold permStep
  cases hf : fetch t with
  | error e => simp [hf]
  | ok meta =>
    cases hp : meta.isPermanent
    · simp [hp]
    · simp [hp, goMapHasKey_goInsert]
      tauto

theorem foldl_permStep_hasKey (fetch : String → Except GoErr GenericMetadata) :
    ∀ (ts : List String) (acc : List (String × Bool)) (n : String),
      goMapHasKey (ts.foldl (permStep fetch) acc) n = true ↔
        goMapHasKey acc n = true ∨
          (n ∈ ts ∧ ∃ meta, fetch n = .ok meta ∧ meta.isPermanent = true) := by
  intro ts
  induction ts with
  | nil => simp
  | cons t rest ih =>
    intro acc n
    rw [List.foldl_cons, ih, hasKey_permStep]
    constructor
    · rintro ((h | ⟨he, hm⟩) | ⟨hmem, hP⟩)
      · exact Or.inl h
      · subst he; exact Or.inr ⟨by simp, hm⟩
      · exact Or.inr ⟨List.mem_cons_of_mem _ hmem, hP⟩
    · rintro (h | ⟨hmem, hP⟩)
      · exact Or.inl (Or.inl h)
      · rcases List.mem_cons.mp hmem with he | hmem2
        · subst he; exact Or.inl (Or.inr ⟨rfl, hP⟩)
        · exact Or.inr ⟨hmem2, hP⟩

theorem unwrap_filter_pass (ti : FileTarInterpreter) (fs : FS) (name : String) (tp : FSPath)
    (fsync : Bool) (strategy : Bool → Except GoErr FileUnwrapResult)
    (hpass : ti.filesToUnwrap = none ∨
      ∃ m, ti.filesToUnwrap = some m ∧ (goLookup m name).isSome = true) :
    unwrapRegularFile ti fs name tp fsync strategy =
      processRegularFile ti.unwrapResult fs name tp fsync strategy := by
  rcases hpass with h | ⟨m, hm, hk⟩
  · simp [unwrapRegularFile, h]
  · simp [unwrapRegularFile, hm, hk]

theorem processRegularFile_events (agg : UnwrapResult) (fs : FS) (name : String) (tp : FSPath)
    (fsync : Bool) (strategy : Bool → Except GoErr FileUnwrapResult) (f : GoFile) (isNew : Bool)
    (h : (getLocalFile fs tp name).1 = .ok (f, isNew)) :
    Ev.closed ∈ (processRegularFile agg fs name tp fsync strategy).events ∧
      (fsync = true → Ev.synced ∈ (processRegularFile agg fs name tp fsync strategy).events) := by
  rcases hgl : getLocalFile fs tp name with ⟨r, fs1⟩
  rw [hgl] at h
  simp only at h
  subst h
  simp only [processRegularFile, hgl]
  cases strategy isNew <;> cases fsync <;> simp [deferredEvents]

theorem openFileRdwr_shape (fs : FS) (p : FSPath) (f : GoFile)
    (h : openFileRdwr fs p = .ok f) : f = ⟨p, true, true⟩ := by
  unfold openFileRdwr at h
  split at h
  · cases h
  · cases h; rfl
  · cases h

theorem openFileWronly_shape (fs : FS) (p : FSPath) (f : GoFile) (fs2 : FS)
    (h : openFileWronlyCreateTrunc fs p = (.ok f, fs2)) : f = ⟨p, false, true⟩ := by
  unfold openFileWronlyCreateTrunc at h
  split at h
  · simp at h
  · simp only [Prod.mk.injEq] at h
    exact (Except.ok.inj h.1).symm
  · split at h
    · simp only [Prod.mk.injEq] at h
      exact (Except.ok.inj h.1).symm
    · simp at h

theorem createLocalFile_shape (fs : FS) (tp : FSPath) (name : String) (f : GoFile) (fs2 : FS)
    (h : createLocalFile fs tp name = (.ok f, fs2)) : f = ⟨tp, false, true⟩ := by
  unfold createLocalFile at h
  split at h
  · simp at h
  · rename_i fs1 heq
    split at h
    · rename_i f2 fs3 heq2
      simp only [Prod.mk.injEq] at h
      exact (Except.ok.inj h.1).symm ▸ openFileWronly_shape _ _ _ _ heq2
    · simp at h

theorem prepareDirs_preserves (fs : FS) (name : String) (tp q : FSPath) (n : Node)
    (h : fsGet fs q = some n) : fsGet (PrepareDirs fs name tp).2 q = some n := by
  unfold PrepareDirs
  split
  · exact h
  · exact mkdirAllAux_preserves _ _ _ _ _ h

theorem createLocalFile_dir (fs : FS) (tp : FSPath) (name : String) (m : Nat)
    (h : fsGet fs tp = some (Node.dir m)) :
    (createLocalFile fs tp name).1 = .error .mkdirFailed ∨
      (createLocalFile fs tp name).1 = .error .createFailed := by
  unfold createLocalFile
  rcases hp : PrepareDirs fs name tp with ⟨ep, fs1⟩
  cases ep with
  | some e => simp
  | none =>
    have h1 : fsGet fs1 tp = some (Node.dir m) := by
      have hpre := prepareDirs_preserves fs name tp tp _ h
      rw [hp] at hpre
      exact hpre
    have h2 : openFileWronlyCreateTrunc fs1 tp = (.error .openFailed, fs1) := by
      unfold openFileWronlyCreateTrunc
      rw [h1]
    simp [h2]

/-- C1, counterexample: with the target path bound to a directory, processing
the regular-file entry fails with the wrapped file-creation error, not with
the `InvalidTargetError` ("requested file is directory"): `getLocalFile`
discards the probe's error and calls `createLocalFile` on the directory. -/
theorem c1_counterexample :
    (unwrapRegularFile ⟨[], none, NewUnwrapResult, false⟩ [(["d"], Node.dir 493)] "d" ["d"] true
        (fun _ => .ok ⟨.Completed, 0⟩)).err = some .createFailed ∧
      GoErr.createFailed ≠ GoErr.requestedFileIsDirectory := by
  decide

/-- C1, amended: for every regular-file entry whose target path is a
directory, the reconciler still fails — but with a directory-creation or
file-creation error from the attempted `createLocalFile`, never with the
`InvalidTargetError`, which is constructed by `getLocalFileInfo` and then
discarded by `getLocalFile`. -/
theorem c1_amended_directory_target (fs : FS) (tp : FSPath) (name : String) (m : Nat)
    (h : fsGet fs tp = some (Node.dir m)) :
    ∃ e, (getLocalFile fs tp name).1 = .error e ∧ e ≠ GoErr.requestedFileIsDirectory := by
  have hinfo : getLocalFileInfo fs tp = .error .requestedFileIsDirectory := by
    simp [getLocalFileInfo, h]
  rcases hc : createLocalFile fs tp name with ⟨r, fs1⟩
  have hr : r = .error .mkdirFailed ∨ r = .error .createFailed := by
    have hd := createLocalFile_dir fs tp name m h
    rw [hc] at hd
    exact hd
  simp only [getLocalFile, hinfo, hc]
  rcases hr with rfl | rfl
  · exact ⟨.mkdirFailed, rfl, by decide⟩
  · exact ⟨.createFailed, rfl, by decide⟩

/-- C1, witness for the amended theorem at a concrete directory target. -/
theorem c1_amended_witness :
    fsGet [(["d"], Node.dir 493)] ["d"] = some (Node.dir 493) ∧
      ∃ e, (getLocalFile [(["d"], Node.dir 493)] ["d"] "d").1 = .error e ∧
        e ≠ GoErr.requestedFileIsDirectory :=
  ⟨by decide, c1_amended_directory_target [(["d"], Node.dir 493)] ["d"] "d" 493 (by decide)⟩

/-- C2, counterexample: in the new-file case `getLocalFile` succeeds with a
write-only handle (`O_WRONLY|O_CREATE|O_TRUNC`), refuting "open for both
reading and writing in the existing-file case and the new-file case alike". -/
theorem c2_counterexample :
    (getLocalFile [] ["f"] "f").1 = .ok (⟨["f"], false, true⟩, true) ∧
      (GoFile.mk ["f"] false true).readable = false := by
  decide

/-- C2, amended: on success the returned handle is always writable; it is
additionally readable exactly in the existing-file case — the new-file case
yields a write-only handle. -/
theorem c2_amended_handle_modes (fs : FS) (tp : FSPath) (name : String) (f : GoFile)
    (isNew : Bool) (h : (getLocalFile fs tp name).1 = .ok (f, isNew)) :
    f.writable = true ∧ f.readable = !isNew := by
  rcases hgl : getLocalFile fs tp name with ⟨r, fs1⟩
  rw [hgl] at h
  simp only at h
  subst h
  unfold getLocalFile at hgl
  split at hgl
  · split at hgl
    · rename_i g hopen
      have hg := openFileRdwr_shape fs tp g hopen
      subst hg
      simp only [Prod.mk.injEq] at hgl
      have hpair := Except.ok.inj hgl.1
      cases hpair
      simp
    · simp at hgl
  · split at hgl
    · rename_i g fs2 heq2
      have hg := createLocalFile_shape fs tp name g fs2 heq2
      subst hg
      simp only [Prod.mk.injEq] at hgl
      have hpair := Except.ok.inj hgl.1
      cases hpair
      simp
    · simp at hgl

/-- C2, witness for the amended theorem: the existing-file case yields a
read-write handle. -/
theorem c2_amended_witness :
    (getLocalFile [(["f"], Node.file 438)] ["f"] "f").1 = .ok (⟨["f"], true, true⟩, false) ∧
      (GoFile.mk ["f"] true true).writable = true ∧
      (GoFile.mk ["f"] true true).readable = !false :=
  ⟨by decide, c2_amended_handle_modes [(["f"], Node.file 438)] ["f"] "f" ⟨["f"], true, true⟩
    false (by decide)⟩

/-- C3: with a non-nil allowlist, a regular-file entry whose name is absent
returns success with the filesystem, the aggregator and the event trace
untouched (no disk I/O, no reconciler, no strategy); with a nil allowlist the
call is exactly the post-filter processing body. -/
theorem c3_allowlist_filter :
    (∀ (ti : FileTarInterpreter) (fs : FS) (name : String) (tp : FSPath) (fsync : Bool)
        (strategy : Bool → Except GoErr FileUnwrapResult) (m : List (String × Bool)),
        ti.filesToUnwrap = some m → goLookup m name = none →
        unwrapRegularFile ti fs name tp fsync strategy = ⟨none, ti.unwrapResult, fs, []⟩) ∧
      (∀ (ti : FileTarInterpreter) (fs : FS) (name : String) (tp : FSPath) (fsync : Bool)
          (strategy : Bool → Except GoErr FileUnwrapResult),
        ti.filesToUnwrap = none →
        unwrapRegularFile ti fs name tp fsync strategy =
          processRegularFile ti.unwrapResult fs name tp fsync strategy) := by
  constructor
  · intro ti fs name tp fsync strategy m hm hnone
    simp [unwrapRegularFile, hm, hnone]
  · intro ti fs name tp fsync strategy hn
    simp [unwrapRegularFile, hn]

/-- C3, witness at concrete inputs: the filtered-out case and the
nil-allowlist case. -/
theorem c3_witness :
    goLookup [("a", true)] "b" = none ∧
      unwrapRegularFile ⟨[], some [("a", true)], NewUnwrapResult, false⟩ [] "b" ["b"] true
          (fun _ => .ok ⟨.Completed, 0⟩) = ⟨none, NewUnwrapResult, [], []⟩ ∧
      unwrapRegularFile ⟨[], none, NewUnwrapResult, false⟩ [] "b" ["b"] true
          (fun _ => .ok ⟨.Completed, 0⟩) =
        processRegularFile NewUnwrapResult [] "b" ["b"] true (fun _ => .ok ⟨.Completed, 0⟩) :=
  ⟨by decide,
    c3_allowlist_filter.1 ⟨[], some [("a", true)], NewUnwrapResult, false⟩ [] "b" ["b"] true
      (fun _ => .ok ⟨.Completed, 0⟩) [("a", true)] rfl (by decide),
    c3_allowlist_filter.2 ⟨[], none, NewUnwrapResult, false⟩ [] "b" ["b"] true
      (fun _ => .ok ⟨.Completed, 0⟩) rfl⟩

/-- C4: for any processed-so-far list of recorded (name, outcome) pairs with
distinct names, every name in any of the three aggregate collections comes
from a recorded non-`Skipped` entry, the three collections are pairwise
disjoint, and recording a `Skipped` outcome never changes the aggregator. -/
theorem c4_aggregator_partition (entries : List (String × FileUnwrapResult))
    (hnodup : (entries.map Prod.fst).Nodup) :
    (∀ n, aggMem (runAggregate entries) n →
        ∃ r, (n, r) ∈ entries ∧ r.resultType ≠ .Skipped) ∧
      aggDisjoint (runAggregate entries) ∧
      (∀ (u : UnwrapResult) (r : FileUnwrapResult) (nm : String),
        r.resultType = .Skipped → AddFileUnwrapResult u r nm = u) := by
  refine ⟨?_, ?_, ?_⟩
  · intro n hmem
    rcases recordAll_subset entries NewUnwrapResult n hmem with h | h
    · exact absurd h (aggMem_empty n)
    · exact h
  · exact recordAll_disjoint entries NewUnwrapResult aggDisjoint_empty
      (fun n hmem => absurd hmem (aggMem_empty n)) hnodup
  · intro u r nm hr
    simp [AddFileUnwrapResult, hr]

/-- C4, witness at a concrete three-entry run covering three outcome kinds. -/
theorem c4_witness :
    ([("a", (⟨.Completed, 0⟩ : FileUnwrapResult)), ("b", ⟨.CreatedFromIncrement, 2⟩),
        ("c", ⟨.Skipped, 0⟩)].map Prod.fst).Nodup ∧
      ((∀ n, aggMem (runAggregate [("a", ⟨.Completed, 0⟩), ("b", ⟨.CreatedFromIncrement, 2⟩),
            ("c", ⟨.Skipped, 0⟩)]) n →
          ∃ r, (n, r) ∈ [("a", (⟨.Completed, 0⟩ : FileUnwrapResult)),
              ("b", ⟨.CreatedFromIncrement, 2⟩), ("c", ⟨.Skipped, 0⟩)] ∧
            r.resultType ≠ .Skipped) ∧
        aggDisjoint (runAggregate [("a", ⟨.Completed, 0⟩), ("b", ⟨.CreatedFromIncrement, 2⟩),
          ("c", ⟨.Skipped, 0⟩)]) ∧
        (∀ (u : UnwrapResult) (r : FileUnwrapResult) (nm : String),
          r.resultType = .Skipped → AddFileUnwrapResult u r nm = u)) :=
  ⟨by decide,
    c4_aggregator_partition [("a", ⟨.Completed, 0⟩), ("b", ⟨.CreatedFromIncrement, 2⟩),
      ("c", ⟨.Skipped, 0⟩)] (by decide)⟩

/-- C5: `IsPermanent` returns true exactly when the object name is the
base-backup prefix followed by an embedded backup name of exactly the given
length (and then anything) that indexes `true` in the permanent-backups map;
together with the spec's two scenario evaluations. -/
theorem c5_is_permanent_characterization :
    (∀ (objectName : List Char) (permanentBackups : List (List Char × Bool)) (n : Nat),
        IsPermanent objectName permanentBackups n = true ↔
          ∃ backup rest, objectName = BaseBackupPath ++ (backup ++ rest) ∧
            backup.length = n ∧ goMapIndexBool permanentBackups backup = true) ∧
      IsPermanent "base_backup/BACKUP001/tar_partitions/1.tar".data
          [("BACKUP001".data, true)] 9 = true ∧
      IsPermanent "wal_005/000000010000000000000001".data
          [("BACKUP001".data, true)] 9 = false := by
  refine ⟨?_, by decide, by decide⟩
  intro obj pb n
  unfold IsPermanent
  split
  · rename_i hc
    obtain ⟨hpre, hlen⟩ := hc
    constructor
    · intro hidx
      refine ⟨(obj.drop BaseBackupPath.length).take n,
        (obj.drop BaseBackupPath.length).drop n, ?_, ?_, hidx⟩
      · conv_lhs => rw [← List.take_append_drop BaseBackupPath.length obj]
        rw [hpre, List.take_append_drop]
      · rw [List.length_take, List.length_drop]
        omega
    · rintro ⟨backup, rest, hobj, hblen, hidx⟩
      subst hobj
      rw [List.drop_left, List.take_left' hblen]
      exact hidx
  · rename_i hc
    constructor
    · intro h; cases h
    · rintro ⟨backup, rest, hobj, hblen, hidx⟩
      exfalso
      apply hc
      subst hobj
      refine ⟨List.take_left _ _, ?_⟩
      rw [List.length_append, List.length_append]
      omega

/-- C6: the permanent set returned by `FindPermanentBackups` contains exactly
the listed backups whose metadata fetch succeeded with a permanent flag — a
per-backup fetch failure is skipped, never aborting the listing — and a
failed listing yields the empty set. -/
theorem c6_find_permanent_backups :
    (∀ (ts : List String) (fetch : String → Except GoErr GenericMetadata) (n : String),
        goMapHasKey (FindPermanentBackups (.ok ts) fetch) n = true ↔
          n ∈ ts ∧ ∃ meta, fetch n = .ok meta ∧ meta.isPermanent = true) ∧
      (∀ (e : GoErr) (fetch : String → Except GoErr GenericMetadata),
        FindPermanentBackups (.error e) fetch = []) := by
  constructor
  · intro ts fetch n
    unfold FindPermanentBackups
    rw [foldl_permStep_hasKey]
    simp [goMapHasKey, goLookup]
  · intro e fetch
    rfl

/-- C7: on a directory entry, `Interpret` creates every missing directory
along the target path, applies the entry's recorded mode to the target, and
is idempotent — running it again on the produced filesystem succeeds and
changes nothing. -/
theorem c7_interpret_directory (ti : FileTarInterpreter) (fs : FS) (header : Header)
    (cfg : Bool) (strategy : Bool → Except GoErr FileUnwrapResult)
    (hdir : header.typeflag = tTypeDir)
    (hne : ti.dbDataDirectory ++ pathComponents header.name ≠ [])
    (hok : (mkdirAll fs (ti.dbDataDirectory ++ pathComponents header.name)).1 = none) :
    ∃ fs2,
      Interpret ti fs header cfg strategy = ⟨none, ti.unwrapResult, fs2, []⟩ ∧
        fsGet fs2 (ti.dbDataDirectory ++ pathComponents header.name) =
          some (Node.dir header.mode) ∧
        allDirs fs2 [] (ti.dbDataDirectory ++ pathComponents header.name) ∧
        Interpret ti fs2 header cfg strategy = ⟨none, ti.unwrapResult, fs2, []⟩ := by
  obtain ⟨fs2, hrun, hget, hdirs, hrun2⟩ := interpretDir_spec fs _ header.mode hne hok
  refine ⟨fs2, ?_, hget, hdirs, ?_⟩
  · simp only [Interpret, hdir]
    rw [if_neg (by decide), if_pos (by decide)]
    simp [hrun]
  · simp only [Interpret, hdir]
    rw [if_neg (by decide), if_pos (by decide)]
    simp [hrun2]

/-- C7, witness: restoring directory entry "a/b" with mode 0700 into an empty
filesystem, twice. -/
theorem c7_witness :
    ((⟨[], none, NewUnwrapResult, false⟩ : FileTarInterpreter).dbDataDirectory ++
        pathComponents "a/b" ≠ []) ∧
      (mkdirAll [] ((⟨[], none, NewUnwrapResult, false⟩ : FileTarInterpreter).dbDataDirectory ++
        pathComponents "a/b")).1 = none ∧
      ∃ fs2,
        Interpret ⟨[], none, NewUnwrapResult, false⟩ [] ⟨"a/b", tTypeDir, 448⟩ false
            (fun _ => .ok ⟨.Completed, 0⟩) = ⟨none, NewUnwrapResult, fs2, []⟩ ∧
          fsGet fs2 ((⟨[], none, NewUnwrapResult, false⟩ : FileTarInterpreter).dbDataDirectory ++
            pathComponents "a/b") = some (Node.dir 448) ∧
          allDirs fs2 [] ((⟨[], none, NewUnwrapResult,
            false⟩ : FileTarInterpreter).dbDataDirectory ++ pathComponents "a/b") ∧
          Interpret ⟨[], none, NewUnwrapResult, false⟩ fs2 ⟨"a/b", tTypeDir, 448⟩ false
            (fun _ => .ok ⟨.Completed, 0⟩) = ⟨none, NewUnwrapResult, fs2, []⟩ :=
  ⟨by decide, by decide,
    c7_interpret_directory ⟨[], none, NewUnwrapResult, false⟩ [] ⟨"a/b", tTypeDir, 448⟩ false
      (fun _ => .ok ⟨.Completed, 0⟩) rfl (by decide) (by decide)⟩

/-- C8: whenever the allowlist admits the entry and the local file is opened
successfully, the event trace of `unwrapRegularFile` contains the close — and,
when fsync is enabled, the sync — no matter whether the strategy succeeds or
fails. -/
theorem c8_release_on_every_path (ti : FileTarInterpreter) (fs : FS) (name : String)
    (tp : FSPath) (fsync : Bool) (strategy : Bool → Except GoErr FileUnwrapResult)
    (f : GoFile) (isNew : Bool)
    (hpass : ti.filesToUnwrap = none ∨
      ∃ m, ti.filesToUnwrap = some m ∧ (goLookup m name).isSome = true)
    (hopen : (getLocalFile fs tp name).1 = .ok (f, isNew)) :
    Ev.closed ∈ (unwrapRegularFile ti fs name tp fsync strategy).events ∧
      (fsync = true → Ev.synced ∈ (unwrapRegularFile ti fs name tp fsync strategy).events) := by
  rw [unwrap_filter_pass ti fs name tp fsync strategy hpass]
  exact processRegularFile_events _ _ _ _ _ _ _ _ hopen

/-- C8, witness: a failing strategy on an existing file with fsync enabled
still closes and syncs. -/
theorem c8_witness :
    ((⟨[], none, NewUnwrapResult, false⟩ : FileTarInterpreter).filesToUnwrap = none ∨
      ∃ m, (⟨[], none, NewUnwrapResult, false⟩ : FileTarInterpreter).filesToUnwrap = some m ∧
        (goLookup m "f").isSome = true) ∧
      (getLocalFile [(["f"], Node.file 438)] ["f"] "f").1 =
        .ok (⟨["f"], true, true⟩, false) ∧
      (Ev.closed ∈ (unwrapRegularFile ⟨[], none, NewUnwrapResult, false⟩
          [(["f"], Node.file 438)] "f" ["f"] true (fun _ => .error .openFailed)).events ∧
        (true = true → Ev.synced ∈ (unwrapRegularFile ⟨[], none, NewUnwrapResult, false⟩
          [(["f"], Node.file 438)] "f" ["f"] true (fun _ => .error .openFailed)).events)) :=
  ⟨Or.inl rfl, by decide,
    c8_release_on_every_path ⟨[], none, NewUnwrapResult, false⟩ [(["f"], Node.file 438)] "f"
      ["f"] true (fun _ => .error .openFailed) ⟨["f"], true, true⟩ false (Or.inl rfl)
      (by decide)⟩

/-- C9: with a non-nil allowlist the processing decision depends only on key
presence — any stored value admits the entry to the same post-filter body, so
a name mapping to false is processed exactly as one mapping to true. -/
theorem c9_allowlist_value_irrelevant :
    (∀ (ti : FileTarInterpreter) (fs : FS) (name : String) (tp : FSPath) (fsync : Bool)
        (strategy : Bool → Except GoErr FileUnwrapResult) (m : List (String × Bool)) (v : Bool),
        ti.filesToUnwrap = some m → goLookup m name = some v →
        unwrapRegularFile ti fs name tp fsync strategy =
          processRegularFile ti.unwrapResult fs name tp fsync strategy) ∧
      (∀ (d : FSPath) (agg : UnwrapResult) (cat : Bool) (fs : FS) (name : String) (tp : FSPath)
          (fsync : Bool) (strategy : Bool → Except GoErr FileUnwrapResult)
          (m : List (String × Bool)),
        unwrapRegularFile ⟨d, some (goInsert m name false), agg, cat⟩ fs name tp fsync strategy =
          unwrapRegularFile ⟨d, some (goInsert m name true), agg, cat⟩ fs name tp fsync
            strategy) := by
  have hfirst : ∀ (ti : FileTarInterpreter) (fs : FS) (name : String) (tp : FSPath)
      (fsync : Bool) (strategy : Bool → Except GoErr FileUnwrapResult)
      (m : List (String × Bool)) (v : Bool),
      ti.filesToUnwrap = some m → goLookup m name = some v →
      unwrapRegularFile ti fs name tp fsync strategy =
        processRegularFile ti.unwrapResult fs name tp fsync strategy := by
    intro ti fs name tp fsync strategy m v hm hv
    simp [unwrapRegularFile, hm, hv]
  refine ⟨hfirst, ?_⟩
  intro d agg cat fs name tp fsync strategy m
  rw [hfirst ⟨d, some (goInsert m name false), agg, cat⟩ fs name tp fsync strategy _ false rfl
      (by rw [goLookup_goInsert]; simp),
    hfirst ⟨d, some (goInsert m name true), agg, cat⟩ fs name tp fsync strategy _ true rfl
      (by rw [goLookup_goInsert]; simp)]

/-- C9, witness: at a concrete entry, the allowlist value false admits the
entry exactly as value true does. -/
theorem c9_witness :
    (⟨[], some [("f", false)], NewUnwrapResult, false⟩ : FileTarInterpreter).filesToUnwrap =
        some [("f", false)] ∧
      goLookup [("f", false)] "f" = some false ∧
      unwrapRegularFile ⟨[], some [("f", false)], NewUnwrapResult, false⟩ [] "f" ["f"] true
          (fun _ => .ok ⟨.Completed, 0⟩) =
        processRegularFile NewUnwrapResult [] "f" ["f"] true (fun _ => .ok ⟨.Completed, 0⟩) :=
  ⟨rfl, by decide,
    c9_allowlist_value_irrelevant.1 ⟨[], some [("f", false)], NewUnwrapResult, false⟩ [] "f"
      ["f"] true (fun _ => .ok ⟨.Completed, 0⟩) [("f", false)] false rfl (by decide)⟩

/-- C10: an archive entry whose type flag is none of regular file (both
flavours), directory, hard link or symlink makes `Interpret` return success
with the filesystem, the aggregator and the event trace untouched. -/
theorem c10_unknown_typeflag (ti : FileTarInterpreter) (fs : FS) (header : Header)
    (cfg : Bool) (strategy : Bool → Except GoErr FileUnwrapResult)
    (h1 : header.typeflag ≠ tTypeReg) (h2 : header.typeflag ≠ tTypeRegA)
    (h3 : header.typeflag ≠ tTypeDir) (h4 : header.typeflag ≠ tTypeLink)
    (h5 : header.typeflag ≠ tTypeSymlink) :
    Interpret ti fs header cfg strategy = ⟨none, ti.unwrapResult, fs, []⟩ := by
  simp [Interpret, h1, h2, h3, h4, h5]

/-- C10, witness: a FIFO-style type flag ('3' = 51) on a non-trivial state. -/
theorem c10_witness :
    ((51 : Nat) ≠ tTypeReg ∧ (51 : Nat) ≠ tTypeRegA ∧ (51 : Nat) ≠ tTypeDir ∧
        (51 : Nat) ≠ tTypeLink ∧ (51 : Nat) ≠ tTypeSymlink) ∧
      Interpret ⟨["base"], none, NewUnwrapResult, false⟩ [(["base"], Node.dir 493)]
          ⟨"x", 51, 420⟩ false (fun _ => .ok ⟨.Completed, 0⟩) =
        ⟨none, NewUnwrapResult, [(["base"], Node.dir 493)], []⟩ :=
  ⟨by decide,
    c10_unknown_typeflag ⟨["base"], none, NewUnwrapResult, false⟩ [(["base"], Node.dir 493)]
      ⟨"x", 51, 420⟩ false (fun _ => .ok ⟨.Completed, 0⟩) (by decide) (by decide) (by decide)
      (by decide) (by decide)⟩

end WalG
